import Mathlib

/-!
Shallow embedding of the Go teaching repository `learning-go-book`.

The repository's code consists of small Go functions and tests that
demonstrate host-language semantics: the chapter-announcement helper
(`internal/common/announce.go`), integer overflow wrapping
(`internal/predeclared_types/exercise_test.go`), zero values, array and
slice semantics (length, capacity, growth, aliasing, full slice
expressions, `copy`, `clear`), and string/rune/byte conversions
(`internal/composite_types/composite_types_test.go`).

Go values are embedded as follows: machine integers become `Nat`/`Int`
with explicit reduction modulo `2^w` where overflow matters; Go arrays
and the backing stores of Go slices become `List`s; a Go slice value
becomes a view (start, length, capacity) into a backing list, so that
aliasing between sub-slices is the sharing of one backing list by
several views; Go strings become their sequence of Unicode code points
together with the UTF-8 byte encoding that Go's `len`, indexing and
`[]byte` conversion observe; fallible operations (array indexing that
may panic) return `Option`.
-/

namespace LearningGo

/-! ### `internal/common/announce.go` -/

/-- The output sink of `AnnounceChapter`: either the process standard
output or a caller-supplied buffer (identified by a tag). Mirrors the
`io.Writer` argument, whose only observable role in this program is
which stream receives the formatted line. -/
inductive Sink where
  | stdout : Sink
  | buffer : Nat → Sink
deriving DecidableEq, Repr

/-- Embedding of `AnnounceChapter(w io.Writer, chapter int, name string)`:
if `w == nil` the sink defaults to `os.Stdout`; the function writes the
single line produced by `fmt.Fprintf(w, "Chapter %d: %s\n", chapter, name)`.
The result is the pair (sink actually written to, text written). -/
def AnnounceChapter (w : Option Sink) (chapter : Int) (name : String) :
    Sink × String :=
  let sink := match w with
    | none => Sink.stdout
    | some s => s
  (sink, "Chapter " ++ toString chapter ++ ": " ++ name ++ "\n")

/-! ### `internal/predeclared_types/exercise_test.go`, `exerciseThree` -/

/-- Go `byte` (= `uint8`) increment: arithmetic wraps modulo `2^8`. -/
def byteInc (b : Nat) : Nat := (b + 1) % 2 ^ 8

/-- Go `uint64` increment: arithmetic wraps modulo `2^64`. -/
def uint64Inc (u : Nat) : Nat := (u + 1) % 2 ^ 64

/-- Go `int32` increment: two's-complement arithmetic, wrapping into
the representable range `[-2^31, 2^31)`. -/
def int32Inc (x : Int) : Int := (x + 1 + 2 ^ 31) % 2 ^ 32 - 2 ^ 31

/-- Embedding of `exerciseThree(writer io.Writer)`: sets `b byte = 255`,
`smallI int32 = 2147483647`, `bigI uint64 = 18446744073709551615`,
increments each, and writes them with `fmt.Fprintln` (space-separated,
newline-terminated). The result is the text written to the writer. -/
def exerciseThree : String :=
  let b := byteInc 255
  let smallI := int32Inc 2147483647
  let bigI := uint64Inc 18446744073709551615
  toString b ++ " " ++ toString smallI ++ " " ++ toString bigI ++ "\n"

/-! ### Zero values (`01_predeclared_types_test.go`, arrays in
`composite_types_test.go`) -/

/-- Zero value of Go `int`. -/
def zeroInteger : Int := 0

/-- Zero value of Go `string`. -/
def zeroString : String := ""

/-- Zero value of Go `bool`. -/
def zeroBool : Bool := false

/-- Zero value of Go `float64`. All floating-point values appearing in
this program (only `0.0`) are exactly representable, so `float64` is
embedded as `ℚ`. -/
def zeroFloat : ℚ := 0

/-- A Go array literal of `int`s of length `n` with keyed elements
`entries` (the syntax `[n]int{i0: v0, i1: v1, ...}`): every index not
listed holds the zero value `0`. An uninitialized array is the literal
with no entries. -/
def goArrayLit (n : Nat) (entries : List (Nat × Int)) : List Int :=
  (List.range n).map fun i => ((entries.lookup i).getD 0)

/-- Declaration `var simpleArray [3]int` — declared without initialization. -/
def simpleArray : List Int := goArrayLit 3 []

/-- Declaration `var sparseArray = [5]int{0: 100, 2: 200}`. -/
def sparseArray : List Int := goArrayLit 5 [(0, 100), (2, 200)]

/-- Declaration `var runtimeCheck = [3]int{1, 2, 3}`. -/
def runtimeCheck : List Int := [1, 2, 3]

/-- Go array read `a[i]`: succeeds with the element when `i` is in
bounds, and panics (modelled as `none`) when `i ≥ len(a)`. -/
def goArrayGet (a : List Int) (i : Nat) : Option Int := a.get? i

/-! ### Slices (`internal/composite_types/composite_types_test.go`)

A Go slice value is a view into a backing array: a start offset, a
length and a capacity. Several slice values may share one backing
array, which is how sub-slice aliasing arises; the backing array is
threaded explicitly through the operations below. -/

/-- A Go slice header: offset into the backing array, length, capacity. -/
structure SliceView where
  start : Nat
  len : Nat
  cap : Nat
deriving DecidableEq, Repr

/-- The elements a slice denotes: `len` elements of the backing array
starting at offset `start`. -/
def SliceView.toList (backing : List α) (v : SliceView) : List α :=
  (backing.drop v.start).take v.len

/-- Read `s[i]` through a slice view: panics (`none`) when `i ≥ len(s)`. -/
def SliceView.read (backing : List α) (v : SliceView) (i : Nat) : Option α :=
  if i < v.len then backing.get? (v.start + i) else none

/-- A slice literal `[]T{x1, ..., xn}`: a fresh backing array holding
exactly the listed elements, with length and capacity `n`. -/
def sliceLit (l : List α) : List α × SliceView :=
  (l, ⟨0, l.length, l.length⟩)

/-- Go `make([]T, n, c)`: a fresh backing array of `c` zeroed elements and
a view of length `n` and capacity `c` over it. -/
def makeSlice (z : α) (n c : Nat) : List α × SliceView :=
  (List.replicate c z, ⟨0, n, c⟩)

/-- The simple slice expression `s[lo:hi]`: shares the backing array;
the sub-slice has length `hi - lo` and capacity `cap(s) - lo`. -/
def SliceView.subslice (v : SliceView) (lo hi : Nat) : SliceView :=
  ⟨v.start + lo, hi - lo, v.cap - lo⟩

/-- The full slice expression `s[lo:hi:m]`: shares the backing array;
the sub-slice has length `hi - lo` and capacity `m - lo`. -/
def SliceView.fullSlice (v : SliceView) (lo hi m : Nat) : SliceView :=
  ⟨v.start + lo, hi - lo, m - lo⟩

/-- Write `v` at absolute position `i` of a backing array
(the assignment `s[i] = v` writes at `start(s) + i`). -/
def writeAt (backing : List α) (i : Nat) (x : α) : List α :=
  backing.set i x

/-- Write a sequence of elements at consecutive absolute positions of a
backing array. -/
def writeSeq (backing : List α) (i : Nat) : List α → List α
  | [] => backing
  | x :: xs => writeSeq (backing.set i x) (i + 1) xs

/-- One step of the growth loop of the Go runtime's `nextslicecap` for
old capacities of at least 256: repeatedly grow by about a quarter
until the requested length fits. The fuel argument (always at least
`newLen`) only bounds the recursion; each step strictly increases the
capacity, so the fuel is never exhausted in reachable states. -/
def nextslicecapLoop : Nat → Nat → Nat → Nat
  | 0, newcap, _ => newcap
  | fuel + 1, newcap, newLen =>
    let nc := newcap + (newcap + 3 * 256) / 4
    if newLen ≤ nc then nc else nextslicecapLoop fuel nc newLen

/-- The Go runtime's capacity growth rule (`nextslicecap` in
`runtime/slice.go`), as exercised and documented by
`TestCapacityAllocation` and `TestSliceCommonMistakeAppend`: when the
requested length exceeds twice the old capacity, use the requested
length; otherwise, below the 256 threshold double the capacity, and
above it grow by about 25% until the requested length fits. (The
subsequent size-class rounding of the allocator is the identity for
every allocation performed in this program and is not modelled.) -/
def nextslicecap (newLen oldCap : Nat) : Nat :=
  if 2 * oldCap < newLen then newLen
  else if oldCap < 256 then 2 * oldCap
  else nextslicecapLoop newLen oldCap newLen

/-- Go `append(s, xs...)`: when the new length fits within the capacity the
elements are written in place into the shared backing array; otherwise a
fresh backing array of the grown capacity is allocated, the old elements
copied over, and the new elements appended. Returns the (possibly new)
backing array, the resulting slice header, and whether a reallocation
happened. `z` is the element type's zero value, padding the fresh
allocation. -/
def goAppend (z : α) (backing : List α) (v : SliceView) (xs : List α) :
    List α × SliceView × Bool :=
  let newLen := v.len + xs.length
  if newLen ≤ v.cap then
    (writeSeq backing (v.start + v.len) xs, ⟨v.start, newLen, v.cap⟩, false)
  else
    let newCap := nextslicecap newLen v.cap
    let content := SliceView.toList backing v ++ xs
    (content ++ List.replicate (newCap - newLen) z, ⟨0, newLen, newCap⟩, true)

/-- The `copy(dst, src)` builtin: copies exactly
`min (len dst) (len src)` elements from the front of `src` over the
front of `dst` and returns that count. (Stated here directly on the
element sequences; the test scenarios allocate fresh backing arrays for
`dst`, so no aliasing is involved.) -/
def goCopy (dst src : List α) : List α × Nat :=
  let n := min dst.length src.length
  (src.take n ++ dst.drop n, n)

/-- The `clear` builtin on a slice of `int`s: every element becomes the
zero value; the length is unchanged. -/
def goClear (s : List Int) : List Int :=
  s.map fun _ => 0

/-! ### Strings, runes and bytes
(`TestExtractingValueFromString`, `TestStringIndexingMultiByte`,
`TestStringSliceConv`)

A Go string is embedded as its sequence of Unicode code points; its
memory representation, which `len`, byte indexing and `[]byte`
conversion observe, is the UTF-8 encoding of that sequence, and
`[]rune` conversion recovers the code points. -/

/-- UTF-8 encoding of one Unicode code point, as a list of bytes
(each `< 256`). -/
def utf8EncodeChar (c : Nat) : List Nat :=
  if c < 0x80 then [c]
  else if c < 0x800 then
    [0xC0 + c / 64, 0x80 + c % 64]
  else if c < 0x10000 then
    [0xE0 + c / 4096, 0x80 + c / 64 % 64, 0x80 + c % 64]
  else
    [0xF0 + c / 262144, 0x80 + c / 4096 % 64, 0x80 + c / 64 % 64,
     0x80 + c % 64]

/-- The bytes of a Go string given as its code points: the
concatenation of the UTF-8 encodings. `len(s)`, `s[i]` and `[]byte(s)`
all observe this sequence. -/
def goStringBytes (cps : List Nat) : List Nat :=
  (cps.map utf8EncodeChar).flatten

/-- Conversion `[]rune(s)`: the sequence of code points of the string. -/
def goStringRunes (cps : List Nat) : List Nat := cps

/-- Byte indexing `s[i]` of a Go string: the `uint8` at position `i` of
the UTF-8 representation (`none` models the out-of-range panic). -/
def goStringIndex (cps : List Nat) (i : Nat) : Option Nat :=
  (goStringBytes cps).get? i

/-- The code points of the Go string literal `"hello ॡ world"`
(`ॡ` is U+0961). -/
def helloWorldMB : List Nat :=
  [104, 101, 108, 108, 111, 32, 0x961, 32, 119, 111, 114, 108, 100]

/-- The code points of the Go string literal `"Hi ॡ"`. -/
def hiStr : List Nat := [72, 105, 32, 0x961]

/-- The code points of the Go string literal `"hello world"`. -/
def helloWorld : List Nat :=
  [104, 101, 108, 108, 111, 32, 119, 111, 114, 108, 100]

/-! ### Theorems -/

/-- C1: for every chapter number `n` and name `s`, `AnnounceChapter`
writes to the caller-supplied sink exactly the line
`"Chapter " ++ n ++ ": " ++ s ++ "\n"` (with `n` rendered in decimal),
and when the writer argument is nil it writes that line to standard
output. -/
theorem announceChapter_spec (n : Int) (s : String) :
    AnnounceChapter none n s =
      (Sink.stdout, "Chapter " ++ toString n ++ ": " ++ s ++ "\n") ∧
    ∀ w : Sink, AnnounceChapter (some w) n s =
      (w, "Chapter " ++ toString n ++ ": " ++ s ++ "\n") := by
  exact ⟨rfl, fun w => rfl⟩

/-- C2: integer overflow wraps modulo `2^w`: a `byte` holding 255
increments to 0, an `int32` holding 2147483647 increments to
-2147483648, a `uint64` holding 18446744073709551615 increments to 0,
and `exerciseThree` writes exactly `"0 -2147483648 0\n"`. -/
theorem exerciseThree_spec :
    byteInc 255 = 0 ∧
    int32Inc 2147483647 = -2147483648 ∧
    uint64Inc 18446744073709551615 = 0 ∧
    exerciseThree = "0 -2147483648 0\n" := by
  refine ⟨by decide, by decide, by decide, rfl⟩

/-- C3: a sub-slice shares the parent's backing storage: for
`s = [1,2,3,4,5]` and `other = s[:5]`, assigning `s[0] = 100` makes
`other[0]` equal 100; and for `s = ["A","B","C","D"]` with `y = s[:2]`
(so `cap(y) = 4`), appending `"Foo"` to `y` writes in place and
overwrites the parent's element at index 2, leaving `s` equal to
`["A","B","Foo","D"]` with indices 0, 1 and 3 unchanged. -/
theorem slice_aliasing_spec :
    (let p := sliceLit ([1, 2, 3, 4, 5] : List Int)
     let s := p.2
     let other := s.subslice 0 5
     let b1 := writeAt p.1 (s.start + 0) 100
     SliceView.read b1 s 0 = some 100 ∧
     SliceView.read b1 other 0 = some 100) ∧
    (let p := sliceLit ["A", "B", "C", "D"]
     let s := p.2
     let y := s.subslice 0 2
     let r := goAppend "" p.1 y ["Foo"]
     y.cap = 4 ∧
     r.2.2 = false ∧
     SliceView.toList r.1 r.2.1 = ["A", "B", "Foo"] ∧
     SliceView.toList r.1 s = ["A", "B", "Foo", "D"] ∧
     SliceView.read r.1 s 0 = SliceView.read p.1 s 0 ∧
     SliceView.read r.1 s 1 = SliceView.read p.1 s 1 ∧
     SliceView.read r.1 s 3 = SliceView.read p.1 s 3) := by
  decide

/-- C4: the full slice expression caps the sub-slice's capacity so an
append cannot touch the parent: for `s = [1,2,3,4,5]` and
`s2 = s[:2:2]`, `append(s2, 1000)` reallocates, leaves `s` equal to
`[1,2,3,4,5]`, and yields `s2 = [1,2,1000]`. -/
theorem full_slice_expression_spec :
    (let p := sliceLit ([1, 2, 3, 4, 5] : List Int)
     let s := p.2
     let s2 := s.fullSlice 0 2 2
     let r := goAppend 0 p.1 s2 [1000]
     s2.cap = 2 ∧
     r.2.2 = true ∧
     SliceView.toList p.1 s = [1, 2, 3, 4, 5] ∧
     SliceView.toList r.1 r.2.1 = [1, 2, 1000]) := by
  decide

/-- C5: when an append exceeds the current capacity and that capacity
is positive and below 256, the new capacity is double the old one; in
particular appending a third element to a slice of length 2 and
capacity 2 yields length 3 and capacity 4, and appending past capacity
20 to reach length 21 yields capacity 40. -/
theorem append_growth_spec :
    (∀ c : Nat, 0 < c → c < 256 → nextslicecap (c + 1) c = 2 * c) ∧
    (let p := sliceLit ([1, 2] : List Int)
     let r := goAppend 0 p.1 p.2 [3]
     r.2.1.len = 3 ∧ r.2.1.cap = 4) ∧
    (let p := makeSlice (0 : Int) 10 20
     let r1 := goAppend 0 p.1 p.2 [2]
     let r2 := goAppend 0 r1.1 r1.2.1 [12, 13, 14, 15, 16, 17, 18, 19, 20, 21]
     r1.2.1.len = 11 ∧ r1.2.1.cap = 20 ∧
     r2.2.1.len = 21 ∧ r2.2.1.cap = 40) := by
  refine ⟨?_, by decide, by decide⟩
  intro c h1 h2
  unfold nextslicecap
  rw [if_neg (by omega), if_pos h2]

/-- C5 witness: growing past capacity 20 for a requested length of 21
doubles the capacity to 40. -/
theorem append_growth_witness : nextslicecap 21 20 = 2 * 20 :=
  append_growth_spec.1 20 (by decide) (by decide)

/-- C6: every variable declared without explicit initialization holds
its type's zero value: an uninitialized `int` is 0, `float64` is 0.0,
`bool` is false, `string` is empty; every element of the uninitialized
`[3]int` array is 0; and in the sparse literal `[5]int{0: 100, 2: 200}`
the listed indices hold their values and every other index holds 0. -/
theorem zero_values_spec :
    zeroInteger = 0 ∧ zeroFloat = 0 ∧ zeroBool = false ∧ zeroString = "" ∧
    simpleArray = [0, 0, 0] ∧
    sparseArray = [100, 0, 200, 0, 0] ∧
    goArrayGet sparseArray 0 = some 100 ∧
    goArrayGet sparseArray 2 = some 200 := by
  decide

/-- C7: reading the length-3 array `runtimeCheck` panics exactly at the
indices that are out of bounds: the read is `none` iff the index is at
least 3, and every index below 3 succeeds. -/
theorem array_bounds_spec (i : Nat) :
    (goArrayGet runtimeCheck i = none ↔ 3 ≤ i) ∧
    (i < 3 → (goArrayGet runtimeCheck i).isSome = true) := by
  constructor
  · simp [goArrayGet, runtimeCheck, List.get?_eq_none]
  · intro h
    interval_cases i <;> decide

/-- C7 witness: reading `runtimeCheck` at index 3 panics and reading it
at index 0 succeeds. -/
theorem array_bounds_witness :
    goArrayGet runtimeCheck 3 = none ∧
    (goArrayGet runtimeCheck 0).isSome = true :=
  ⟨(array_bounds_spec 3).1.mpr (by decide), (array_bounds_spec 0).2 (by decide)⟩

/-- C8: strings are UTF-8 byte sequences: `len("hello ॡ world")` is 15
with the code point U+0961 occupying bytes 6 through 8; `"Hi ॡ"`
converts to 6 bytes but 4 runes; indexing a string returns the byte at
that position (each a `uint8`, i.e. below 256). -/
theorem string_bytes_spec :
    (goStringBytes helloWorldMB).length = 15 ∧
    ((goStringBytes helloWorldMB).drop 6).take 3 = utf8EncodeChar 0x961 ∧
    (goStringBytes hiStr).length = 6 ∧
    (goStringRunes hiStr).length = 4 ∧
    goStringIndex helloWorld 0 = some 104 ∧
    goStringIndex helloWorld 10 = some 100 ∧
    (goStringBytes helloWorldMB).all (fun b => b < 256) = true := by
  decide

/-- C9: `copy(dst, src)` copies exactly `min (len dst) (len src)`
elements from the front of `src` into the front of `dst` (leaving the
rest of `dst` unchanged) and returns that count; copying into a nil
destination returns 0 and leaves it empty; and after a full copy the
two slices are independent: appending 100 to one and 200 to the other
yields `[1,2,3,100]` and `[1,2,3,200]`. -/
theorem copy_spec :
    (∀ dst src : List Int,
      (goCopy dst src).2 = min dst.length src.length ∧
      (goCopy dst src).1.length = dst.length ∧
      (goCopy dst src).1.take (min dst.length src.length) =
        src.take (min dst.length src.length) ∧
      (goCopy dst src).1.drop (min dst.length src.length) =
        dst.drop (min dst.length src.length)) ∧
    goCopy ([] : List Int) [1, 2, 3] = ([], 0) ∧
    (let p1 := sliceLit ([1, 2, 3] : List Int)
     let p2 := makeSlice (0 : Int) 3 3
     let c := goCopy (SliceView.toList p2.1 p2.2) (SliceView.toList p1.1 p1.2)
     let r1 := goAppend 0 p1.1 p1.2 [100]
     let r2 := goAppend 0 c.1 p2.2 [200]
     c.2 = 3 ∧
     SliceView.toList r1.1 r1.2.1 = [1, 2, 3, 100] ∧
     SliceView.toList r2.1 r2.2.1 = [1, 2, 3, 200]) := by
  refine ⟨?_, by decide, by decide⟩
  intro dst src
  refine ⟨rfl, ?_, ?_, ?_⟩
  · simp [goCopy]
  · simp [goCopy]
  · simp [goCopy]

/-- C10: the `clear` builtin sets every element of a slice to the zero
value and leaves the length unchanged; in particular after `clear` on
the length-100 slice whose index 99 held 10, index 99 holds 0 and the
length is still 100. -/
theorem clear_spec :
    (∀ s : List Int,
      (goClear s).length = s.length ∧ (goClear s).all (fun x => x = 0)) ∧
    (let p := makeSlice (0 : Int) 100 100
     let b1 := writeAt p.1 99 10
     b1.get? 99 = some 10 ∧
     (goClear b1).get? 99 = some 0 ∧
     (goClear b1).length = 100) := by
  refine ⟨?_, by decide⟩
  intro s
  refine ⟨by simp [goClear], ?_⟩
  simp [goClear, List.all_eq_true]

end LearningGo
